import Mathlib

/-!
Verification of the course-delivery application: the authorization/routing
state machine (`src/App.tsx`, `src/unnamed/part_003`), the username/email
transform (`src/lib/supabase.ts`), profile resolution (`fetchProfile`), and
the Markdown content-sync pipeline (`src/unnamed/part_001`, `part_002`):
slug generation, sort-order inference, asset upload with a per-run cache,
Markdown reference rewriting, and the sync orchestrator.

Strings are embedded as `List Char` (JavaScript strings are sequences of
characters; all claims concern exact character sequences).  JavaScript's
`toLowerCase` is modelled by `Char.toLower` (ASCII case mapping; the CJK
characters appearing in the data have no case).  In the Markdown scanner,
`\s` is modelled by `jsWs`, the full ECMAScript WhiteSpace/LineTerminator
class, and `String.replace` by `jsReplaceFirst` with the GetSubstitution
treatment of `$` patterns in the replacement text; the slug pipeline and
`trim` use the ASCII whitespace subset `Char.isWhitespace`, exact on the
domains their theorems quantify over.
-/

/-- The set of screens routed by the application (`<Routes>` in App.tsx):
/login, /signup, /pending, /courses, /courses/:slug, /admin, and the
catch-all `*` path. -/
inductive Screen where
  | login
  | signup
  | pending
  | courseList
  | courseDetail
  | admin
  | unknown
deriving DecidableEq, Repr, Fintype

/-- A routing decision: either the requested screen's component is rendered,
or the router emits `<Navigate to=... replace />`. -/
inductive Decision where
  | render (s : Screen)
  | redirectTo (s : Screen)
deriving DecidableEq, Repr

/-- The route-guard logic of `App` (identical in `src/src/App.tsx` and
`src/unnamed/part_003`): each `<Route>` element's conditional, translated
clause for clause.  `hasSession` is `!!session`, `isActive` is
`profile?.is_active ?? false`, `isAdmin` is `profile?.is_admin ?? false`. -/
def route (hasSession isActive isAdmin : Bool) : Screen → Decision
  | .login =>
      if !hasSession then .render .login
      else if isActive then .redirectTo .courseList
      else .redirectTo .pending
  | .signup =>
      if !hasSession then .render .signup
      else .redirectTo .pending
  | .pending =>
      if !hasSession then .redirectTo .login
      else if isActive then .redirectTo .courseList
      else .render .pending
  | .courseList =>
      if !hasSession then .redirectTo .login
      else if !isActive then .redirectTo .pending
      else .render .courseList
  | .courseDetail =>
      if !hasSession then .redirectTo .login
      else if !isActive then .redirectTo .pending
      else .render .courseDetail
  | .admin =>
      if !hasSession then .redirectTo .login
      else if !isAdmin then .redirectTo .courseList
      else .render .admin
  | .unknown =>
      if !hasSession then .redirectTo .login
      else if isActive then .redirectTo .courseList
      else .redirectTo .pending

/-- The decision table of spec section 4.1, written from the spec's words
(row "true | false | —" sends every screen other than Pending to Pending,
for both values of isAdmin).  This is the table claim C1 asserts the code
reproduces exactly. -/
def specTableRoute (hasSession isActive isAdmin : Bool) : Screen → Decision :=
  fun s =>
    if !hasSession then
      match s with
      | .login => .render .login
      | .signup => .render .signup
      | _ => .redirectTo .login
    else if !isActive then
      match s with
      | .pending => .render .pending
      | _ => .redirectTo .pending
    else
      match s with
      | .login => .redirectTo .courseList
      | .signup => .redirectTo .pending
      | .pending => .redirectTo .courseList
      | .courseList => .render .courseList
      | .courseDetail => .render .courseDetail
      | .admin => if isAdmin then .render .admin else .redirectTo .courseList
      | .unknown => .redirectTo .courseList

/-- The 4.1 table as the code actually implements it: identical to
`specTableRoute` except in the authenticated-but-inactive row, where the
Admin screen is decided by the role alone (the /admin route performs no
activation check): it renders for an inactive admin and redirects an
inactive non-admin to CourseList, not Pending. -/
def amendedTableRoute (hasSession isActive isAdmin : Bool) : Screen → Decision :=
  fun s =>
    if !hasSession then
      match s with
      | .login => .render .login
      | .signup => .render .signup
      | _ => .redirectTo .login
    else if !isActive then
      match s with
      | .pending => .render .pending
      | .admin => if isAdmin then .render .admin else .redirectTo .courseList
      | _ => .redirectTo .pending
    else
      match s with
      | .login => .redirectTo .courseList
      | .signup => .redirectTo .pending
      | .pending => .redirectTo .courseList
      | .courseList => .render .courseList
      | .courseDetail => .render .courseDetail
      | .admin => if isAdmin then .render .admin else .redirectTo .courseList
      | .unknown => .redirectTo .courseList

/-- C1 counterexample: at (hasSession := true, isActive := false,
isAdmin := false), the code redirects an /admin request to CourseList,
while the section 4.1 table demands a redirect to Pending.  The claimed
exact agreement with the table is therefore false. -/
theorem c1_counterexample :
    route true false false Screen.admin = Decision.redirectTo Screen.courseList ∧
    specTableRoute true false false Screen.admin = Decision.redirectTo Screen.pending ∧
    route true false false Screen.admin ≠ specTableRoute true false false Screen.admin := by
  decide

/-- C1 (amended): for every (hasSession, isActive, isAdmin) in Bool^3 and
every requested screen, the routing decision equals the 4.1 table amended
in its Admin column only: when hasSession is true and isActive is false,
Admin renders if isAdmin and otherwise redirects to CourseList (the /admin
route checks only the role); every other cell is exactly as the table
states, and no additional checks exist. -/
theorem c1_amended :
    ∀ (hasSession isActive isAdmin : Bool) (s : Screen),
      route hasSession isActive isAdmin s = amendedTableRoute hasSession isActive isAdmin s := by
  decide

/-! ## Username / pseudo-email transform (`src/lib/supabase.ts`) -/

/-- JavaScript `String.prototype.trim`: whitespace removed from both ends. -/
def jsTrim (l : List Char) : List Char :=
  (((l.dropWhile Char.isWhitespace).reverse.dropWhile Char.isWhitespace)).reverse

/-- JavaScript `toLowerCase`, restricted to the ASCII case mapping (the CJK
characters used by this repository are unaffected by case mapping). -/
def jsToLower (l : List Char) : List Char :=
  l.map Char.toLower

/-- Index of the first occurrence of `pat` in a string, if any (the search
`String.prototype.replace` with a string pattern performs). -/
def firstIndexOf (pat : List Char) : List Char → Option Nat
  | [] => if pat.isPrefixOf ([] : List Char) then some 0 else none
  | x :: xs =>
      if pat.isPrefixOf (x :: xs) then some 0
      else (firstIndexOf pat xs).map (· + 1)

/-- `String.prototype.replace` with a string pattern, specialized to a
replacement text with no `$` substitution patterns (see `jsReplaceFirst`
and `replaceFirst_eq_jsReplaceFirst` for the general GetSubstitution
semantics): the first occurrence of `pat` is replaced by `rep` verbatim;
if `pat` does not occur, the string is returned unchanged. -/
def replaceFirst (pat rep : List Char) : List Char → List Char
  | [] => if pat.isPrefixOf ([] : List Char) then rep else []
  | x :: xs =>
      if pat.isPrefixOf (x :: xs) then rep ++ (x :: xs).drop pat.length
      else x :: replaceFirst pat rep xs

/-- ECMAScript GetSubstitution for a string search pattern (no capture
groups): in the replacement template, `$$` yields `$`, `$&` the matched
text, `$`+backquote (U+0060) the portion before the match, `$`+apostrophe
(U+0027) the portion after, and any other `$` (including `$` before digits,
as the capture list is empty, and a trailing `$`) is copied literally. -/
def getSubstitution (matched before after : List Char) : List Char → List Char
  | [] => []
  | c :: rest =>
      if c = '$' then
        match rest with
        | [] => ['$']
        | d :: r =>
            if d = '$' then '$' :: getSubstitution matched before after r
            else if d = '&' then matched ++ getSubstitution matched before after r
            else if d = Char.ofNat 0x60 then before ++ getSubstitution matched before after r
            else if d = Char.ofNat 0x27 then after ++ getSubstitution matched before after r
            else c :: getSubstitution matched before after (d :: r)
      else c :: getSubstitution matched before after rest

/-- JavaScript `String.prototype.replace` with a string pattern, in full:
the first occurrence of `pat` is replaced by the GetSubstitution expansion
of `rep` against the match and its surrounding context; if `pat` does not
occur, the string is returned unchanged. -/
def jsReplaceFirst (pat rep s : List Char) : List Char :=
  match firstIndexOf pat s with
  | none => s
  | some i =>
      s.take i ++ getSubstitution pat (s.take i) (s.drop (i + pat.length)) rep ++
        s.drop (i + pat.length)

/-- The fixed domain suffix `@gzdlab.com`. -/
def domainSuffix : List Char := ['@', 'g', 'z', 'd', 'l', 'a', 'b', '.', 'c', 'o', 'm']

/-- `usernameToEmail` from `src/lib/supabase.ts`:
`username.toLowerCase().trim() + "@gzdlab.com"`. -/
def usernameToEmail (username : List Char) : List Char :=
  jsTrim (jsToLower username) ++ domainSuffix

/-- `emailToUsername` from `src/lib/supabase.ts`:
`email.replace("@gzdlab.com", "")` (first occurrence only). -/
def emailToUsername (email : List Char) : List Char :=
  replaceFirst domainSuffix [] email

/-- C9 counterexample: the round trip does not recover `"Alice"` — the
synthesis lowercases the username, so stripping the suffix yields
`"alice"`. -/
theorem c9_counterexample :
    emailToUsername (usernameToEmail "Alice".toList) ≠ "Alice".toList := by
  decide

theorem replaceFirst_append_suffix_of_no_at (u : List Char)
    (h : '@' ∉ u) : replaceFirst domainSuffix [] (u ++ domainSuffix) = u := by
  induction u with
  | nil =>
      show replaceFirst domainSuffix [] ([] ++ domainSuffix) = []
      decide
  | cons c cs ih =>
      have hc : c ≠ '@' := fun he => h (he ▸ List.mem_cons_self c cs)
      have hpre : ¬ domainSuffix <+: (c :: (cs ++ domainSuffix)) := by
        intro hp
        rcases hp with ⟨t, ht⟩
        rw [domainSuffix] at ht
        rw [List.cons_append] at ht
        injection ht with h1 _
        exact hc h1.symm
      have hnp : ¬ (domainSuffix.isPrefixOf (c :: (cs ++ domainSuffix)) = true) :=
        fun htrue => hpre (List.isPrefixOf_iff_prefix.mp htrue)
      rw [List.cons_append, replaceFirst, if_neg hnp]
      rw [ih (fun hm => h (List.mem_cons_of_mem c hm))]

/-- C9 (amended): for every username that is already trimmed and lowercase
and contains no `@` character (in particular every username accepted by the
batch importer's `[A-Za-z0-9_]+` rule, lowercased), synthesizing the
contact address by appending the fixed domain suffix and then stripping
that suffix recovers the original username. -/
theorem c9_amended (u : List Char)
    (hnorm : jsTrim (jsToLower u) = u) (hat : '@' ∉ u) :
    emailToUsername (usernameToEmail u) = u := by
  unfold emailToUsername usernameToEmail
  rw [hnorm]
  exact replaceFirst_append_suffix_of_no_at u hat

/-- C9 amended witness: the round trip at the concrete username "alice". -/
theorem c9_amended_witness :
    jsTrim (jsToLower "alice".toList) = "alice".toList ∧ '@' ∉ "alice".toList ∧
    emailToUsername (usernameToEmail "alice".toList) = "alice".toList :=
  ⟨by decide, by decide, c9_amended "alice".toList (by decide) (by decide)⟩

/-! ## Profile resolution (`fetchProfile` in `src/unnamed/part_003`) -/

/-- A `profiles` row (`Profile` interface in `src/lib/supabase.ts`). -/
structure Profile where
  id : List Char
  username : List Char
  is_active : Bool
  is_admin : Bool
  created_at : List Char
deriving DecidableEq, Repr

/-- The read-only inputs profile resolution takes from the validated
session: user id, contact address (`user.email || ''` when absent), and the
optional metadata-supplied username (`user_metadata?.username`). -/
structure SessionInfo where
  userId : List Char
  email : Option (List Char)
  metaUsername : Option (List Char)

/-- Result of the store lookup `from('profiles').select('*').eq('id', userId)
.single()`: a row, the PGRST116 "no row" condition, or any other error. -/
inductive LookupOutcome where
  | found (p : Profile)
  | noRow
  | failure (msg : List Char)

/-- The row passed to `from('profiles').insert({...})`. -/
structure InsertReq where
  id : List Char
  username : List Char
  is_active : Bool
  is_admin : Bool
deriving DecidableEq, Repr

/-- Result of the insert: the created row (via `.select().single()`) or an
error. -/
inductive InsertOutcome where
  | created (p : Profile)
  | failure (msg : List Char)

/-- The application state `fetchProfile` leaves behind: the resolved
profile, the error message, and the list of insert calls it issued. -/
structure ResolutionState where
  profile : Option Profile
  errMsg : Option (List Char)
  insertCalls : List InsertReq
deriving Repr

/-- The username chosen for the lazily created row:
`currentSession.user.user_metadata?.username || emailToUsername(userEmail)`
(an absent or empty metadata username is falsy in JavaScript, so both fall
back to the transformed contact address). -/
def resolvedUsername (sess : SessionInfo) : List Char :=
  match sess.metaUsername with
  | some u => if u.isEmpty then emailToUsername (sess.email.getD []) else u
  | none => emailToUsername (sess.email.getD [])

/-- `fetchProfile` from `src/unnamed/part_003`, clause for clause.  `lookup`
is the outcome of the select, `ins` the store's response to an insert,
`err0` the error state before the call (the insert-success branch does not
clear it; the found branch sets it to null). -/
def fetchProfile (lookup : LookupOutcome) (ins : InsertReq → InsertOutcome)
    (sess : SessionInfo) (err0 : Option (List Char)) : ResolutionState :=
  match lookup with
  | .found p => ⟨some p, none, []⟩
  | .noRow =>
      match ins ⟨sess.userId, resolvedUsername sess, false, false⟩ with
      | .created p => ⟨some p, err0, [⟨sess.userId, resolvedUsername sess, false, false⟩]⟩
      | .failure m =>
          ⟨none, some ("创建用户资料失败: ".toList ++ m),
            [⟨sess.userId, resolvedUsername sess, false, false⟩]⟩
  | .failure m => ⟨none, some ("获取用户资料失败: ".toList ++ m), []⟩

/-- What the top of `App` renders: the Loading placeholder, the Error
pseudo-state (shown when an error is set and a session exists; its only
action is the sign-out button), or the routed screens with
`isActive`/`isAdmin` defaulted from the profile. -/
inductive AppView where
  | loadingView
  | errorView
  | routesView (isActive isAdmin : Bool)
deriving DecidableEq, Repr

/-- The render dispatch at the top of `App` in `src/unnamed/part_003`:
`if (loading) ...; if (error && session) ...;` then the routes with
`profile?.is_active ?? false` and `profile?.is_admin ?? false`. -/
def appView (hasSession loading : Bool) (profile : Option Profile)
    (err : Option (List Char)) : AppView :=
  if loading then .loadingView
  else if err.isSome && hasSession then .errorView
  else .routesView ((profile.map (·.is_active)).getD false)
    ((profile.map (·.is_admin)).getD false)

/-- C2: on an authenticated session, a profile row is inserted (exactly
one, with is_active=false and is_admin=false, username from the metadata if
present and nonempty, else the contact address with the domain suffix
stripped) precisely when the lookup reports the "no row" condition; the
created row becomes the resolved profile; a lookup failure other than "no
row", or an insert failure, leaves no profile, sets an error message, and
renders the Error pseudo-state rather than routing with defaulted flags. -/
theorem c2_profile_resolution (lookup : LookupOutcome)
    (ins : InsertReq → InsertOutcome) (sess : SessionInfo)
    (err0 : Option (List Char)) :
    (∀ p, lookup = .found p →
      fetchProfile lookup ins sess err0 = ⟨some p, none, []⟩) ∧
    (∀ m, lookup = .failure m →
      (fetchProfile lookup ins sess err0).profile = none ∧
      (fetchProfile lookup ins sess err0).insertCalls = [] ∧
      (fetchProfile lookup ins sess err0).errMsg.isSome = true ∧
      appView true false (fetchProfile lookup ins sess err0).profile
        (fetchProfile lookup ins sess err0).errMsg = .errorView) ∧
    (lookup = .noRow →
      ∃ req : InsertReq,
        (fetchProfile lookup ins sess err0).insertCalls = [req] ∧
        req.is_active = false ∧ req.is_admin = false ∧ req.id = sess.userId ∧
        (∀ u, sess.metaUsername = some u → u ≠ [] → req.username = u) ∧
        ((sess.metaUsername = none ∨ sess.metaUsername = some []) →
          req.username = emailToUsername (sess.email.getD [])) ∧
        (∀ p, ins req = .created p →
          (fetchProfile lookup ins sess err0).profile = some p) ∧
        (∀ m, ins req = .failure m →
          (fetchProfile lookup ins sess err0).profile = none ∧
          (fetchProfile lookup ins sess err0).errMsg.isSome = true ∧
          appView true false (fetchProfile lookup ins sess err0).profile
            (fetchProfile lookup ins sess err0).errMsg = .errorView)) := by
  cases lookup with
  | found p =>
      refine ⟨?_, ?_, ?_⟩
      · intro p' hp
        injection hp with h
        subst h
        rfl
      · intro m hm
        exact LookupOutcome.noConfusion hm
      · intro hm
        exact LookupOutcome.noConfusion hm
  | failure m =>
      refine ⟨?_, ?_, ?_⟩
      · intro p hp
        exact LookupOutcome.noConfusion hp
      · intro m' hm'
        injection hm' with h
        subst h
        exact ⟨rfl, rfl, rfl, rfl⟩
      · intro hm
        exact LookupOutcome.noConfusion hm
  | noRow =>
      refine ⟨?_, ?_, fun _ => ?_⟩
      · intro p hp
        exact LookupOutcome.noConfusion hp
      · intro m hm
        exact LookupOutcome.noConfusion hm
      · refine ⟨⟨sess.userId, resolvedUsername sess, false, false⟩,
          ?_, rfl, rfl, rfl, ?_, ?_, ?_, ?_⟩
        · cases hins : ins ⟨sess.userId, resolvedUsername sess, false, false⟩ <;>
            simp [fetchProfile, hins]
        · intro u hu hne
          simp [resolvedUsername, hu, List.isEmpty_eq_true, hne]
        · intro hu
          rcases hu with hu | hu <;> simp [resolvedUsername, hu]
        · intro p hp
          simp [fetchProfile, hp]
        · intro m hm
          simp [fetchProfile, hm, appView]

/-- A store backend for the C2 witness that accepts every insert and
returns the inserted row with a server-assigned timestamp. -/
def insAccept : InsertReq → InsertOutcome :=
  fun r => .created ⟨r.id, r.username, r.is_active, r.is_admin, "t0".toList⟩

/-- A session for the C2 witness: no metadata username, contact address
synthesized from "bob". -/
def sessBob : SessionInfo :=
  ⟨"u1".toList, some ("bob".toList ++ domainSuffix), none⟩

/-- C2 witness: the no-row branch instantiated at a concrete session and a
store that accepts the insert. -/
theorem c2_witness :
    ∃ req : InsertReq,
      (fetchProfile .noRow insAccept sessBob none).insertCalls = [req] ∧
      req.is_active = false ∧ req.is_admin = false ∧ req.id = sessBob.userId ∧
      (∀ u, sessBob.metaUsername = some u → u ≠ [] → req.username = u) ∧
      ((sessBob.metaUsername = none ∨ sessBob.metaUsername = some []) →
        req.username = emailToUsername (sessBob.email.getD [])) ∧
      (∀ p, insAccept req = .created p →
        (fetchProfile .noRow insAccept sessBob none).profile = some p) ∧
      (∀ m, insAccept req = .failure m →
        (fetchProfile .noRow insAccept sessBob none).profile = none ∧
        (fetchProfile .noRow insAccept sessBob none).errMsg.isSome = true ∧
        appView true false (fetchProfile .noRow insAccept sessBob none).profile
          (fetchProfile .noRow insAccept sessBob none).errMsg = .errorView) :=
  (c2_profile_resolution .noRow insAccept sessBob none).2.2 rfl

/-! ## Slug and sort-order derivation (`src/unnamed/part_001`, `part_002`) -/

/-- The character class `[一二三四五六七八九十百千万]` of the ordinal-prefix
regexes. -/
def cnClass : List Char := ['一', '二', '三', '四', '五', '六', '七', '八', '九', '十', '百', '千', '万']

/-- The `chineseNums` table: only the ten single-character numerals 一
through 十 have values. -/
def cnVal (c : Char) : Option Nat :=
  if c = '一' then some 1
  else if c = '二' then some 2
  else if c = '三' then some 3
  else if c = '四' then some 4
  else if c = '五' then some 5
  else if c = '六' then some 6
  else if c = '七' then some 7
  else if c = '八' then some 8
  else if c = '九' then some 9
  else if c = '十' then some 10
  else none

/-- The ten recognized numerals with their values, for stating C3. -/
def cnPairs : List (Char × Nat) :=
  [('一', 1), ('二', 2), ('三', 3), ('四', 4), ('五', 5),
   ('六', 6), ('七', 7), ('八', 8), ('九', 9), ('十', 10)]

/-- The `第([一二三四五六七八九十百千万]+)课` branch of `extractSortOrder`:
`some v` when the name starts with the pattern and the captured numeral
string is a key of `chineseNums`; `none` both when the pattern does not
match and when the captured string is not in the table (the code then falls
through to the next branch).  The regex's `[..]+` capture is the maximal
run of class characters, which must be followed immediately by 课. -/
def chineseOrder : List Char → Option Nat
  | [] => none
  | c0 :: rest =>
      if c0 = '第' then
        let run := rest.takeWhile (cnClass.contains ·)
        if run.isEmpty then none
        else
          match rest.dropWhile (cnClass.contains ·) with
          | k :: _ =>
              if k = '课' then
                match run with
                | [c] => cnVal c
                | _ => none
              else none
          | [] => none
      else none

/-- `parseInt(digits, 10)` on a nonempty decimal-digit run. -/
def digitVal (ds : List Char) : Nat :=
  ds.foldl (fun acc c => 10 * acc + (c.toNat - '0'.toNat)) 0

/-- `extractSortOrder` from `src/unnamed/part_001` / `part_002`: the 第N课
pattern with a recognized numeral, else the leading decimal run via
`^(\d+)`, else `index + 1`. -/
def extractSortOrder (name : List Char) (index : Nat) : Nat :=
  match chineseOrder name with
  | some n => n
  | none =>
      match name with
      | [] => index + 1
      | d :: rest =>
          if d.isDigit then digitVal ((d :: rest).takeWhile Char.isDigit)
          else index + 1

/-- C3: extractSortOrder returns the value of the Chinese numeral N for
names starting 第N课 with N among the ten recognized numerals; otherwise,
for names starting with a decimal digit, the value of the leading digit run
(the Chinese branch can never match such a name); otherwise index + 1, the
1-based discovery index. -/
theorem c3_extract_sort_order :
    (∀ p ∈ cnPairs, ∀ (rest : List Char) (i : Nat),
      extractSortOrder ('第' :: p.1 :: '课' :: rest) i = p.2) ∧
    (∀ (d : Char) (rest : List Char) (i : Nat), d.isDigit = true →
      chineseOrder (d :: rest) = none ∧
      extractSortOrder (d :: rest) i = digitVal ((d :: rest).takeWhile Char.isDigit)) ∧
    (∀ (name : List Char) (i : Nat), chineseOrder name = none →
      (∀ d rest, name = d :: rest → d.isDigit = false) →
      extractSortOrder name i = i + 1) := by
  refine ⟨?_, ?_, ?_⟩
  · intro p hp rest i
    fin_cases hp <;>
      simp [extractSortOrder, chineseOrder, List.takeWhile_cons, List.dropWhile_cons,
        cnClass, cnVal]
  · intro d rest i h
    have hne : d ≠ '第' := by
      intro he
      subst he
      simp at h
    have hco : chineseOrder (d :: rest) = none := by
      simp only [chineseOrder]
      rw [if_neg hne]
    refine ⟨hco, ?_⟩
    unfold extractSortOrder
    rw [hco]
    simp [h]
  · intro name i h1 h2
    cases name with
    | nil => rfl
    | cons d rest =>
        have hd : d.isDigit = false := h2 d rest rfl
        unfold extractSortOrder
        rw [h1]
        simp [hd]

/-- C3 witness: `第一课-intro` maps to 1; `03-advanced` (at any index, here
9) maps to 3; `advanced` at discovery index 4 maps to 5. -/
theorem c3_witness :
    extractSortOrder "第一课-intro".toList 0 = 1 ∧
    extractSortOrder "03-advanced".toList 9 = 3 ∧
    extractSortOrder "advanced".toList 4 = 5 := by
  refine ⟨?_, ?_, ?_⟩
  · exact c3_extract_sort_order.1 ('一', 1) (by decide) "-intro".toList 0
  · exact ((c3_extract_sort_order.2.1 '0' "3-advanced".toList 9 (by decide)).2).trans (by decide)
  · refine c3_extract_sort_order.2.2 "advanced".toList 4 (by decide) ?_
    intro d rest hd
    have : ('a' : Char) = d := by injection hd
    rw [← this]
    decide

/-- The separator class `[-:：\s]` following the 第N课 prefix. -/
def sep1 (c : Char) : Bool :=
  c = '-' || c = ':' || c = '：' || c.isWhitespace

/-- The separator class `[-:：.\s]` following the decimal prefix. -/
def sep2 (c : Char) : Bool :=
  c = '-' || c = ':' || c = '：' || c = '.' || c.isWhitespace

/-- `.replace(/^第[一二三四五六七八九十百千万]+课[-:：\s]*/, '')`: strip the
numeral-word ordinal prefix with its trailing separators; a name not
matching the pattern is returned unchanged. -/
def stripChinesePre (name : List Char) : List Char :=
  match name with
  | [] => []
  | c0 :: rest =>
      if c0 = '第' then
        if (rest.takeWhile (cnClass.contains ·)).isEmpty then c0 :: rest
        else
          match rest.dropWhile (cnClass.contains ·) with
          | k :: after => if k = '课' then after.dropWhile sep1 else c0 :: rest
          | [] => c0 :: rest
      else c0 :: rest

/-- `.replace(/^\d+[-:：.\s]*/, '')`: strip a leading decimal run with its
trailing separators; a name not starting with a digit is unchanged. -/
def stripDecimalPre (name : List Char) : List Char :=
  match name with
  | [] => []
  | d :: rest =>
      if d.isDigit then
        ((d :: rest).dropWhile Char.isDigit).dropWhile sep2
      else d :: rest

/-- The slug character filter `[^\w一-龥-]` (kept characters:
ASCII word characters, the CJK range U+4E00–U+9FA5, and hyphen). -/
def slugCharOk (c : Char) : Bool :=
  c.isAlphanum || c = '_' || (0x4e00 ≤ c.toNat && c.toNat ≤ 0x9fa5) || c = '-'

/-- `.replace(/\s+/g, '-')`: each maximal whitespace run becomes one
hyphen.  The flag records whether the previous character was whitespace. -/
def collapseWsAux : Bool → List Char → List Char
  | _, [] => []
  | prevWs, c :: cs =>
      if c.isWhitespace then
        if prevWs then collapseWsAux true cs else '-' :: collapseWsAux true cs
      else c :: collapseWsAux false cs

/-- `.toLowerCase().replace(/\s+/g, '-').replace(/[^\w一-龥-]/g, '')`,
the URL-friendly transform applied by `generateSlug`. -/
def slugTransform (l : List Char) : List Char :=
  (collapseWsAux false (jsToLower l)).filter slugCharOk

/-- `generateSlug` from `src/unnamed/part_001` / `part_002`: strip both
ordinal prefixes, trim, apply the transform; if empty, apply the transform
to the original (untrimmed) name; if still empty, `'untitled'`. -/
def generateSlug (name : List Char) : List Char :=
  let s := slugTransform (jsTrim (stripDecimalPre (stripChinesePre name)))
  if s.isEmpty then
    let s2 := slugTransform name
    if s2.isEmpty then "untitled".toList else s2
  else s

/-- The slug derivation as the spec's words describe it (claim C4): strip
the recognized ordinal prefixes with their separators, trim, lowercase,
collapse each whitespace run to a single hyphen, delete characters outside
word characters, the CJK range and hyphen; on an empty result redo the
lowercase/hyphen/strip transform on the original untrimmed name; on a still
empty result return the literal token `untitled`. -/
def generateSlugSpec (name : List Char) : List Char :=
  let stripped := jsTrim (stripDecimalPre (stripChinesePre name))
  let s := ((collapseWsAux false (stripped.map Char.toLower))).filter slugCharOk
  if s = [] then
    let s2 := ((collapseWsAux false (name.map Char.toLower))).filter slugCharOk
    if s2 = [] then "untitled".toList else s2
  else s

/-- A `course_pages` row as upserted by the sync script. -/
structure CoursePage where
  slug : List Char
  title : List Char
  sort_order : Nat
  md_content : List Char
deriving DecidableEq, Repr

/-- `upsert(..., { onConflict: 'slug' })`: insert-or-replace keyed by the
unique `slug` column. -/
def upsertBySlug (t : List CoursePage) (r : CoursePage) : List CoursePage :=
  if t.any (fun x => x.slug == r.slug) then
    t.map (fun x => if x.slug == r.slug then r else x)
  else t ++ [r]

/-- C4: `generateSlug` is a pure function computing exactly the transform
the spec describes (prefix strip, trim, lowercase, whitespace collapse,
character strip, fallback to the untrimmed original, fallback to
`untitled`); its result is never empty; and since the function is
deterministic, upserting two rows derived from the same source name (hence
with the same slug) leaves the table no larger than after the first upsert:
the slug-keyed upsert never creates two rows for one name. -/
theorem c4_generate_slug :
    (∀ name, generateSlug name = generateSlugSpec name) ∧
    (∀ name, generateSlug name ≠ []) ∧
    (∀ (t : List CoursePage) (r1 r2 : CoursePage), r2.slug = r1.slug →
      (upsertBySlug (upsertBySlug t r1) r2).length = (upsertBySlug t r1).length) := by
  refine ⟨?_, ?_, ?_⟩
  · intro name
    unfold generateSlug generateSlugSpec slugTransform jsToLower
    cases h : (collapseWsAux false
        ((jsTrim (stripDecimalPre (stripChinesePre name))).map Char.toLower)).filter slugCharOk with
    | nil =>
        simp only [h, List.isEmpty_nil]
        cases h2 : (collapseWsAux false (name.map Char.toLower)).filter slugCharOk with
        | nil => simp [h2]
        | cons a l => simp [h2]
    | cons a l => simp [h]
  · intro name
    unfold generateSlug slugTransform jsToLower
    cases h : (collapseWsAux false
        ((jsTrim (stripDecimalPre (stripChinesePre name))).map Char.toLower)).filter slugCharOk with
    | nil =>
        simp only [h, List.isEmpty_nil, if_true]
        cases h2 : (collapseWsAux false (name.map Char.toLower)).filter slugCharOk with
        | nil => simp [h2]
        | cons a l => simp [h2]
    | cons a l => simp [h]
  · intro t r1 r2 hsl
    have hmem : (upsertBySlug t r1).any (fun x => x.slug == r1.slug) = true := by
      unfold upsertBySlug
      by_cases hin : t.any (fun x => x.slug == r1.slug) = true
      · rw [if_pos hin]
        rcases List.any_eq_true.mp hin with ⟨x, hx, hbeq⟩
        refine List.any_eq_true.mpr ⟨r1, ?_, by simp⟩
        refine List.mem_map.mpr ⟨x, hx, ?_⟩
        rw [if_pos hbeq]
      · rw [if_neg hin]
        refine List.any_eq_true.mpr ⟨r1, by simp, by simp⟩
    conv_lhs => rw [upsertBySlug, hsl, if_pos hmem]
    rw [List.length_map]

/-- Two rows derived from the same source name (differing content), for the
C4 witness. -/
def pageRow1 : CoursePage :=
  ⟨generateSlug "第一课-开场白".toList, "第一课-开场白".toList, 1, "v1".toList⟩

/-- Second sync of the same source name. -/
def pageRow2 : CoursePage :=
  ⟨generateSlug "第一课-开场白".toList, "第一课-开场白".toList, 1, "v2".toList⟩

/-- C4 witness: the slug pipeline at `第一课-开场白`, and the double upsert
of the two rows it derives. -/
theorem c4_witness :
    generateSlug "第一课-开场白".toList = generateSlugSpec "第一课-开场白".toList ∧
    generateSlug "第一课-开场白".toList ≠ [] ∧
    (upsertBySlug (upsertBySlug [] pageRow1) pageRow2).length =
      (upsertBySlug [] pageRow1).length :=
  ⟨c4_generate_slug.1 _, c4_generate_slug.2.1 _,
    c4_generate_slug.2.2 [] pageRow1 pageRow2 rfl⟩

/-! ## Asset uploader (`uploadAsset` and `uploadedAssets` in `part_001`) -/

/-- Outcome of attempting the storage write for a path: the local file does
not exist (`existsSync` false: no write is attempted), the write errored
(network/permission), or the write succeeded. -/
inductive StoreOutcome where
  | missing
  | failed (msg : List Char)
  | ok
deriving DecidableEq, Repr

/-- `uploadAsset(localPath, storagePath)` from `part_001`.  `outcome`
abstracts the filesystem and the storage backend for a given storagePath
(the localPath is a fixed function of it), `pub` is `getPublicUrl`, and
`cache` is the module-level `uploadedAssets` map.  The result is the
returned URL (or null), the cache afterwards, and the number of storage
write calls the invocation made. -/
def uploadAsset (outcome : List Char → StoreOutcome) (pub : List Char → List Char)
    (cache : List (List Char × List Char)) (p : List Char) :
    Option (List Char) × List (List Char × List Char) × Nat :=
  match cache.lookup p with
  | some url => (some url, cache, 0)
  | none =>
      match outcome p with
      | .missing => (none, cache, 0)
      | .failed _ => (none, cache, 1)
      | .ok => (some (pub p), (p, pub p) :: cache, 1)

/-- C6: when an upload call returns a URL, the call made at most one
storage write, the cache afterwards maps the storagePath to that URL, and
every later call with the same storagePath — whatever the backend then
does — returns the same URL from the cache, changes nothing, and performs
no storage write. -/
theorem c6_upload_idempotent (outcome : List Char → StoreOutcome)
    (pub : List Char → List Char) (cache : List (List Char × List Char))
    (p url : List Char) (cache' : List (List Char × List Char)) (w : Nat)
    (h : uploadAsset outcome pub cache p = (some url, cache', w)) :
    w ≤ 1 ∧ cache'.lookup p = some url ∧
    ∀ (outcome2 : List Char → StoreOutcome) (pub2 : List Char → List Char),
      uploadAsset outcome2 pub2 cache' p = (some url, cache', 0) := by
  unfold uploadAsset at h
  cases hc : cache.lookup p with
  | some u =>
      rw [hc] at h
      injection h with h1 h2
      injection h2 with h2 h3
      injection h1 with h1
      subst h1
      subst h2
      subst h3
      refine ⟨by omega, hc, ?_⟩
      intro outcome2 pub2
      unfold uploadAsset
      rw [hc]
  | none =>
      rw [hc] at h
      cases ho : outcome p with
      | missing =>
          rw [ho] at h
          injection h with h1 _
          exact Option.noConfusion h1
      | failed m =>
          rw [ho] at h
          injection h with h1 _
          exact Option.noConfusion h1
      | ok =>
          rw [ho] at h
          injection h with h1 h2
          injection h2 with h2 h3
          injection h1 with h1
          subst h1
          subst h2
          subst h3
          have hl : ((p, pub p) :: cache).lookup p = some (pub p) := by
            simp [List.lookup]
          refine ⟨by omega, hl, ?_⟩
          intro outcome2 pub2
          unfold uploadAsset
          rw [hl]

/-- C10: the cache gains entries only from successful writes — any entry in
the cache after a call was either already there or records the path's
successful write with its public URL; a call returning null leaves the
cache unchanged, so a repeated call re-runs the whole attempt (including
the write attempt, when the failure was a write error rather than a missing
file) with the identical result. -/
theorem c10_cache_success_only (outcome : List Char → StoreOutcome)
    (pub : List Char → List Char) (cache : List (List Char × List Char))
    (p : List Char) (r : Option (List Char))
    (cache' : List (List Char × List Char)) (w : Nat)
    (h : uploadAsset outcome pub cache p = (r, cache', w)) :
    (∀ q u, cache'.lookup q = some u →
      cache.lookup q = some u ∨ (outcome q = .ok ∧ u = pub q)) ∧
    (r = none → cache' = cache ∧
      uploadAsset outcome pub cache' p = (r, cache', w)) := by
  unfold uploadAsset at h
  cases hc : cache.lookup p with
  | some u =>
      rw [hc] at h
      injection h with h1 h2
      injection h2 with h2 h3
      subst h1
      subst h2
      subst h3
      refine ⟨fun q u' hq => Or.inl hq, ?_⟩
      intro hr
      exact Option.noConfusion hr
  | none =>
      rw [hc] at h
      cases ho : outcome p with
      | missing =>
          rw [ho] at h
          injection h with h1 h2
          injection h2 with h2 h3
          subst h1
          subst h2
          subst h3
          refine ⟨fun q u hq => Or.inl hq, fun _ => ⟨rfl, ?_⟩⟩
          unfold uploadAsset
          rw [hc, ho]
      | failed m =>
          rw [ho] at h
          injection h with h1 h2
          injection h2 with h2 h3
          subst h1
          subst h2
          subst h3
          refine ⟨fun q u hq => Or.inl hq, fun _ => ⟨rfl, ?_⟩⟩
          unfold uploadAsset
          rw [hc, ho]
      | ok =>
          rw [ho] at h
          injection h with h1 h2
          injection h2 with h2 h3
          subst h1
          subst h2
          subst h3
          refine ⟨?_, ?_⟩
          · intro q u hq
            by_cases hpq : p = q
            · subst hpq
              simp [List.lookup] at hq
              exact Or.inr ⟨ho, hq.symm⟩
            · left
              have hbeq : (q == p) = false :=
                beq_eq_false_iff_ne.mpr (fun he => hpq he.symm)
              simpa [List.lookup, hbeq] using hq
          · intro hr
            exact Option.noConfusion hr

/-- A backend whose writes all succeed, for the C6 witness. -/
def outcomeAllOk : List Char → StoreOutcome := fun _ => .ok

/-- A `getPublicUrl` for the witnesses. -/
def pubCdn : List Char → List Char := fun p => "https://cdn/".toList ++ p

/-- C6 witness: uploading `image/a.png` into an empty cache succeeds with
one write; the cached second call is covered by the theorem. -/
theorem c6_witness :
    uploadAsset outcomeAllOk pubCdn [] "image/a.png".toList =
      (some (pubCdn "image/a.png".toList),
        [("image/a.png".toList, pubCdn "image/a.png".toList)], 1) ∧
    (1 ≤ 1 ∧
      List.lookup "image/a.png".toList
        [("image/a.png".toList, pubCdn "image/a.png".toList)] =
        some (pubCdn "image/a.png".toList) ∧
      ∀ (outcome2 : List Char → StoreOutcome) (pub2 : List Char → List Char),
        uploadAsset outcome2 pub2
          [("image/a.png".toList, pubCdn "image/a.png".toList)]
          "image/a.png".toList =
        (some (pubCdn "image/a.png".toList),
          [("image/a.png".toList, pubCdn "image/a.png".toList)], 0)) :=
  ⟨rfl, c6_upload_idempotent outcomeAllOk pubCdn [] _ _ _ 1 rfl⟩

/-- A backend whose writes all fail, for the C10 witness. -/
def outcomeAllFail : List Char → StoreOutcome := fun _ => .failed "network error".toList

/-- C10 witness: a failed write caches nothing and the retry repeats the
attempt with the identical result. -/
theorem c10_witness :
    (∀ q u, List.lookup q ([] : List (List Char × List Char)) = some u →
      List.lookup q ([] : List (List Char × List Char)) = some u ∨
        (outcomeAllFail q = .ok ∧ u = pubCdn q)) ∧
    ((none : Option (List Char)) = none →
      ([] : List (List Char × List Char)) = [] ∧
      uploadAsset outcomeAllFail pubCdn [] "image/a.png".toList = (none, [], 1)) :=
  c10_cache_success_only outcomeAllFail pubCdn [] "image/a.png".toList none [] 1 rfl

/-! ## Markdown rewriter (`processMarkdownContent` in `part_001`) -/

/-- The two reference shapes the rewriter recognizes. -/
inductive AssetKind where
  | image
  | file
deriving DecidableEq, Repr

/-- One regex match: the full matched span, the captured alt/link text, and
the captured path group (`image/…` or `file/…`, the storagePath). -/
structure AssetRef where
  kind : AssetKind
  full : List Char
  alt : List Char
  path : List Char
deriving DecidableEq, Repr

/-- ECMAScript `\s`: the WhiteSpace production (TAB, VT, FF, SP, NBSP,
ZWNBSP and the Unicode Zs category) together with the LineTerminators
(LF, CR, LS, PS). -/
def jsWs (c : Char) : Bool :=
  c = '\t' || c = '\n' || c.toNat = 0xb || c.toNat = 0xc || c = '\r' || c = ' ' ||
  c.toNat = 0xa0 || c.toNat = 0x1680 || (0x2000 ≤ c.toNat && c.toNat ≤ 0x200a) ||
  c.toNat = 0x2028 || c.toNat = 0x2029 || c.toNat = 0x202f || c.toNat = 0x205f ||
  c.toNat = 0x3000 || c.toNat = 0xfeff

/-- `[^)\s]` — the character class of the path group. -/
def pathChar (c : Char) : Bool :=
  !(c = ')') && !jsWs c

/-- The literal `image/`. -/
def imagePathPre : List Char := ['i', 'm', 'a', 'g', 'e', '/']

/-- The literal `file/`. -/
def filePathPre : List Char := ['f', 'i', 'l', 'e', '/']

/-- Shared tail of both regexes, after the opening bracket:
`([^\]]*)\]\((pre[^)\s]+)(?:\s+"[^"]*")?\)`.  Returns the alt text, the
path group, the matched characters from `]` on, and the remaining input.
Each quantified class excludes its closing delimiter, so the greedy matches
are the maximal runs and no backtracking cases remain. -/
def parseRefBody (pre : List Char) (r1 : List Char) :
    Option (List Char × List Char × List Char × List Char) :=
  let alt := r1.takeWhile (fun c => !(c = ']'))
  match r1.dropWhile (fun c => !(c = ']')) with
  | ']' :: '(' :: r2 =>
      if pre.isPrefixOf r2 then
        let r3 := r2.drop pre.length
        let run := r3.takeWhile pathChar
        if run.isEmpty then none
        else
          match r3.dropWhile pathChar with
          | ')' :: rest =>
              some (alt, pre ++ run, [']', '('] ++ pre ++ run ++ [')'], rest)
          | r4 =>
              let wsRun := r4.takeWhile jsWs
              if wsRun.isEmpty then none
              else
                match r4.dropWhile jsWs with
                | '"' :: r5 =>
                    let ttl := r5.takeWhile (fun c => !(c = '"'))
                    (match r5.dropWhile (fun c => !(c = '"')) with
                     | '"' :: ')' :: rest =>
                         some (alt, pre ++ run,
                           [']', '('] ++ pre ++ run ++ wsRun ++ ['"'] ++ ttl ++ ['"', ')'],
                           rest)
                     | _ => none)
                | _ => none
      else none
  | _ => none

/-- Attempt the image regex `!\[([^\]]*)\]\((image\/[^)\s]+)(?:\s+"[^"]*")?\)`
at the current position; on a match, the parsed reference and the input
after the match. -/
def tryImage (c : List Char) : Option (AssetRef × List Char) :=
  match c with
  | '!' :: '[' :: r1 =>
      match parseRefBody imagePathPre r1 with
      | some (alt, path, tailChars, rest) =>
          some (⟨.image, '!' :: '[' :: (alt ++ tailChars), alt, path⟩, rest)
      | none => none
  | _ => none

/-- Attempt the file regex `\[([^\]]*)\]\((file\/[^)\s]+)(?:\s+"[^"]*")?\)`
at the current position. -/
def tryFileRef (c : List Char) : Option (AssetRef × List Char) :=
  match c with
  | '[' :: r1 =>
      match parseRefBody filePathPre r1 with
      | some (alt, path, tailChars, rest) =>
          some (⟨.file, '[' :: (alt ++ tailChars), alt, path⟩, rest)
      | none => none
  | _ => none

/-- The `regex.exec` loop with the `g` flag: find successive
non-overlapping matches left to right, resuming after each match.  A step
always consumes at least one character, so `content.length` fuel is
exact. -/
def scanAux (tryAt : List Char → Option (AssetRef × List Char)) :
    Nat → List Char → List AssetRef
  | 0, _ => []
  | _ + 1, [] => []
  | fuel + 1, c :: cs =>
      match tryAt (c :: cs) with
      | some (a, rest) => a :: scanAux tryAt fuel rest
      | none => scanAux tryAt fuel cs

/-- All image-reference matches of the content, in order. -/
def scanImages (content : List Char) : List AssetRef :=
  scanAux tryImage content.length content

/-- All file-reference matches of the content, in order. -/
def scanFileRefs (content : List Char) : List AssetRef :=
  scanAux tryFileRef content.length content

/-- The replacement reference the code builds:
`![alt](url)` or `[alt](url)` — the quoted title is dropped. -/
def rewriteRef (a : AssetRef) (url : List Char) : List Char :=
  match a.kind with
  | .image => '!' :: '[' :: (a.alt ++ (']' :: '(' :: (url ++ [')'])))
  | .file => '[' :: (a.alt ++ (']' :: '(' :: (url ++ [')'])))

/-- One iteration of the upload-and-replace loop: on a non-null URL,
`processedContent.replace(fullMatch, newRef)` — the first occurrence of the
matched span is replaced, with GetSubstitution applied to the replacement
text; on null, the content is left untouched. -/
def applyAssetRef (upload : List Char → Option (List Char))
    (cur : List Char) (a : AssetRef) : List Char :=
  match upload a.path with
  | some url => jsReplaceFirst a.full (rewriteRef a url) cur
  | none => cur

/-- `processMarkdownContent` from `part_001`: collect all image matches,
then all file matches, then fold the upload-and-replace step over them.
The uploader is abstracted as a function storagePath → URL-or-null; within
one run this is the behavior `uploadAsset` guarantees (a fixed backend and
the cache give every path a fixed result — see `c6_upload_idempotent` and
`c10_cache_success_only`). -/
def processMarkdownContent (upload : List Char → Option (List Char))
    (content : List Char) : List Char :=
  (scanImages content ++ scanFileRefs content).foldl (applyAssetRef upload) content

/-- What becomes of one matched reference: its rewritten form when the
upload returns a URL, the original span when it returns null. -/
def rewriteOf (upload : List Char → Option (List Char)) (a : AssetRef) : List Char :=
  match upload a.path with
  | some url => rewriteRef a url
  | none => a.full

/-- Interleave text segments with middles:
`glueS [s0, s1, …] [m1, m2, …] = s0 ++ m1 ++ s1 ++ m2 ++ …`
(missing segments are treated as empty). -/
def glueS : List (List Char) → List (List Char) → List Char
  | segs, [] => segs.flatten
  | segs, m :: ms => segs.headD [] ++ (m ++ glueS segs.tail ms)

theorem glueS_headD (segs : List (List Char)) (m : List Char) (ms : List (List Char)) :
    glueS segs (m :: ms) = segs.headD [] ++ (m ++ glueS segs.tail ms) := rfl

/-- The non-interference condition under which sequential
first-occurrence replacement rewrites each matched span in place: when a
reference with a non-null URL is reached, the first occurrence of its span
in the partially rewritten content is the span itself (`pfx` accumulates
the already-processed text), and the replacement text `![alt](url)` /
`[alt](url)` contains no `$`, so GetSubstitution inserts it verbatim. -/
def noEarlyOcc (upload : List Char → Option (List Char)) :
    List Char → List (List Char) → List AssetRef → Bool
  | _, _, [] => true
  | pfx, segs, a :: as =>
      match upload a.path with
      | none => noEarlyOcc upload ((pfx ++ segs.headD []) ++ a.full) segs.tail as
      | some url =>
          (firstIndexOf a.full
              ((pfx ++ segs.headD []) ++ (a.full ++ glueS segs.tail (as.map (·.full)))) ==
            some (pfx ++ segs.headD []).length) &&
          ((!((rewriteRef a url).contains '$')) &&
            noEarlyOcc upload ((pfx ++ segs.headD []) ++ rewriteRef a url) segs.tail as)

theorem replaceFirst_of_firstIndexOf (pat rep : List Char) :
    ∀ (c : List Char) (i : Nat), firstIndexOf pat c = some i →
      replaceFirst pat rep c = c.take i ++ rep ++ c.drop (i + pat.length) := by
  intro c
  induction c with
  | nil =>
      intro i h
      simp only [firstIndexOf] at h
      split_ifs at h with hp
      injection h with h1
      subst h1
      simp [replaceFirst, hp]
  | cons x xs ih =>
      intro i h
      simp only [firstIndexOf] at h
      split_ifs at h with hp
      · injection h with h1
        subst h1
        simp [replaceFirst, hp]
      · rcases Option.map_eq_some'.mp h with ⟨j, hj, hij⟩
        subst hij
        simp only [replaceFirst, if_neg hp]
        rw [ih j hj]
        have hdrop : (x :: xs).drop (j + 1 + pat.length) = xs.drop (j + pat.length) := by
          have : j + 1 + pat.length = (j + pat.length) + 1 := by omega
          rw [this, List.drop_succ_cons]
        rw [List.take_succ_cons, hdrop]
        rfl

theorem getSubstitution_of_no_dollar (matched before after : List Char) :
    ∀ rep : List Char, '$' ∉ rep →
      getSubstitution matched before after rep = rep := by
  intro rep
  induction rep with
  | nil => intro _; rfl
  | cons c rest ih =>
      intro h
      have hc : c ≠ '$' := fun he => h (he ▸ List.mem_cons_self c rest)
      have hrest : getSubstitution matched before after rest = rest :=
        ih (fun hm => h (List.mem_cons_of_mem c hm))
      cases rest with
      | nil => simp [getSubstitution, hc]
      | cons d r => simp [getSubstitution, hc, hrest]

theorem replaceFirst_of_firstIndexOf_none (pat rep : List Char) :
    ∀ c : List Char, firstIndexOf pat c = none → replaceFirst pat rep c = c := by
  intro c
  induction c with
  | nil =>
      intro h
      simp only [firstIndexOf] at h
      split_ifs at h with hp
      simp [replaceFirst, hp]
  | cons x xs ih =>
      intro h
      simp only [firstIndexOf] at h
      split_ifs at h with hp
      simp only [replaceFirst, if_neg hp]
      rw [ih (Option.map_eq_none'.mp h)]

/-- On a `$`-free replacement text GetSubstitution is the identity, so the
specialized `replaceFirst` agrees with the full JavaScript semantics (in
particular for `emailToUsername`, whose replacement is empty). -/
theorem replaceFirst_eq_jsReplaceFirst (pat rep s : List Char) (h : '$' ∉ rep) :
    replaceFirst pat rep s = jsReplaceFirst pat rep s := by
  cases hfi : firstIndexOf pat s with
  | none =>
      have hred : jsReplaceFirst pat rep s = s := by
        unfold jsReplaceFirst
        rw [hfi]
      rw [hred]
      exact replaceFirst_of_firstIndexOf_none pat rep s hfi
  | some i =>
      have hred : jsReplaceFirst pat rep s =
          s.take i ++ getSubstitution pat (s.take i) (s.drop (i + pat.length)) rep ++
            s.drop (i + pat.length) := by
        unfold jsReplaceFirst
        rw [hfi]
      rw [hred, replaceFirst_of_firstIndexOf pat rep s i hfi,
        getSubstitution_of_no_dollar _ _ _ rep h]

theorem jsReplace_at (pat rep P T : List Char)
    (h : firstIndexOf pat (P ++ (pat ++ T)) = some P.length)
    (hd : '$' ∉ rep) :
    jsReplaceFirst pat rep (P ++ (pat ++ T)) = P ++ (rep ++ T) := by
  have hred : jsReplaceFirst pat rep (P ++ (pat ++ T)) =
      (P ++ (pat ++ T)).take P.length ++
        getSubstitution pat ((P ++ (pat ++ T)).take P.length)
          ((P ++ (pat ++ T)).drop (P.length + pat.length)) rep ++
        (P ++ (pat ++ T)).drop (P.length + pat.length) := by
    unfold jsReplaceFirst
    rw [h]
  have htake : (P ++ (pat ++ T)).take P.length = P := List.take_left P (pat ++ T)
  have hdrop : (P ++ (pat ++ T)).drop (P.length + pat.length) = T := by
    have h1 : P ++ (pat ++ T) = (P ++ pat) ++ T := by rw [List.append_assoc]
    have h2 : P.length + pat.length = (P ++ pat).length := (List.length_append P pat).symm
    rw [h1, h2, List.drop_left]
  rw [hred, htake, hdrop, getSubstitution_of_no_dollar _ _ _ rep hd, List.append_assoc]

theorem foldl_apply_of_noEarlyOcc (upload : List Char → Option (List Char)) :
    ∀ (as : List AssetRef) (pfx : List Char) (segs : List (List Char)),
      noEarlyOcc upload pfx segs as = true →
      as.foldl (applyAssetRef upload) (pfx ++ glueS segs (as.map (·.full))) =
        pfx ++ glueS segs (as.map (rewriteOf upload)) := by
  intro as
  induction as with
  | nil =>
      intro pfx segs _
      rfl
  | cons a as ih =>
      intro pfx segs h
      simp only [noEarlyOcc] at h
      simp only [List.map_cons, List.foldl_cons, glueS_headD]
      cases hu : upload a.path with
      | none =>
          rw [hu] at h
          have hro : rewriteOf upload a = a.full := by
            simp [rewriteOf, hu]
          have hstep : applyAssetRef upload
              (pfx ++ (segs.headD [] ++ (a.full ++ glueS segs.tail (as.map (·.full))))) a =
              pfx ++ (segs.headD [] ++ (a.full ++ glueS segs.tail (as.map (·.full)))) := by
            simp [applyAssetRef, hu]
          rw [hstep, hro]
          have := ih ((pfx ++ segs.headD []) ++ a.full) segs.tail h
          simp only [List.append_assoc] at this ⊢
          exact this
      | some url =>
          rw [hu] at h
          rw [Bool.and_eq_true] at h
          rcases h with ⟨ha, h2⟩
          rw [Bool.and_eq_true] at h2
          rcases h2 with ⟨hb, hrec⟩
          have hfi : firstIndexOf a.full
              ((pfx ++ segs.headD []) ++ (a.full ++ glueS segs.tail (as.map (·.full)))) =
              some (pfx ++ segs.headD []).length := eq_of_beq ha
          have hnd : '$' ∉ rewriteRef a url := by
            intro hm
            have hel : (rewriteRef a url).contains '$' = true := by
              rw [List.contains]
              exact List.elem_iff.mpr hm
            rw [hel] at hb
            exact Bool.noConfusion hb
          have hro : rewriteOf upload a = rewriteRef a url := by
            simp [rewriteOf, hu]
          have hstep : applyAssetRef upload
              (pfx ++ (segs.headD [] ++ (a.full ++ glueS segs.tail (as.map (·.full))))) a =
              (pfx ++ segs.headD []) ++
                (rewriteRef a url ++ glueS segs.tail (as.map (·.full))) := by
            simp only [applyAssetRef, hu]
            have hcur : pfx ++ (segs.headD [] ++ (a.full ++ glueS segs.tail (as.map (·.full)))) =
                (pfx ++ segs.headD []) ++
                  (a.full ++ glueS segs.tail (as.map (·.full))) := by
              simp [List.append_assoc]
            rw [hcur]
            exact jsReplace_at a.full (rewriteRef a url) (pfx ++ segs.headD []) _ hfi hnd
          rw [hstep, hro]
          have := ih ((pfx ++ segs.headD []) ++ rewriteRef a url) segs.tail hrec
          simp only [List.append_assoc] at this ⊢
          exact this

/-- Sanity check of the `replace` semantics: a `$&` in the replacement
text expands to the matched substring. -/
theorem jsReplaceFirst_substitution_check :
    jsReplaceFirst "ab".toList "[$&]".toList "xaby".toList = "x[ab]y".toList := by
  decide

/-- Sanity check of the `\s` model: a NO-BREAK SPACE (U+00A0) inside the
path position aborts the image match (it ends the `[^)\s]+` run and the
title branch then requires a quote), exactly as the ECMAScript class
does. -/
theorem scanImages_nbsp_check :
    scanImages ['!', '[', 'x', ']', '(', 'i', 'm', 'a', 'g', 'e', '/', 'a',
      '\u00A0', 'b', '.', 'p', 'n', 'g', ')'] = [] := by
  decide

/-- An uploader for the C5 counterexample: every path resolves. -/
def uploadAll : List Char → Option (List Char) := fun _ => some "https://u".toList

/-- The C5 counterexample content: the image regex's path class admits `[`,
`]` and `(`, so the image match `![a](image/[x](file/y.gz)` and the file
match `[x](file/y.gz)` overlap. -/
def overlapContent : List Char := "![a](image/[x](file/y.gz)".toList

/-- The file-reference match inside `overlapContent`. -/
def overlapFileRef : AssetRef :=
  ⟨.file, "[x](file/y.gz)".toList, "x".toList, "file/y.gz".toList⟩

/-- C5 counterexample: in `overlapContent` the scanner finds the file
reference `[x](file/y.gz)` and its upload returns a URL, yet the rewriter's
output (the image reference is replaced first, destroying the overlapping
file span) contains no rewritten `[x](url)` — the matched span was not
replaced by its reference shape, contradicting the claim as stated. -/
theorem c5_counterexample :
    scanFileRefs overlapContent = [overlapFileRef] ∧
    uploadAll overlapFileRef.path = some "https://u".toList ∧
    processMarkdownContent uploadAll overlapContent =
      "![a](https://u)".toList ∧
    ¬ rewriteRef overlapFileRef "https://u".toList <:+:
        processMarkdownContent uploadAll overlapContent := by
  refine ⟨by decide, by decide, by decide, by decide⟩

/-- C5 (amended): for content decomposed as alternating text segments and
matched reference spans (`glueS segs (assets.map full)`), where `assets`
are exactly the matches the scanner finds and the non-interference
condition `noEarlyOcc` holds (when each uploaded reference is reached, the
first occurrence of its span in the partially rewritten content is the span
itself — in particular matched spans do not overlap and are not duplicated
earlier), the rewriter replaces every reference whose upload returns a URL
by the same reference shape with the quoted title dropped, leaves every
reference whose upload returns null byte-identical, and leaves all text
segments byte-identical; content with no matches (assets = [], one
segment) is returned unchanged. -/
theorem c5_amended (upload : List Char → Option (List Char))
    (segs : List (List Char)) (assets : List AssetRef)
    (hscan : scanImages (glueS segs (assets.map (·.full))) ++
      scanFileRefs (glueS segs (assets.map (·.full))) = assets)
    (hocc : noEarlyOcc upload [] segs assets = true) :
    processMarkdownContent upload (glueS segs (assets.map (·.full))) =
      glueS segs (assets.map (rewriteOf upload)) := by
  unfold processMarkdownContent
  rw [hscan]
  have := foldl_apply_of_noEarlyOcc upload assets [] segs hocc
  simpa using this

/-- Text segments for the C5 witness. -/
def segsW : List (List Char) :=
  ["Intro ".toList, " mid ".toList, " end".toList]

/-- The image reference of the witness content (upload succeeds). -/
def assetW1 : AssetRef :=
  ⟨.image, "![x](image/a.png)".toList, "x".toList, "image/a.png".toList⟩

/-- The file reference of the witness content, with a quoted title (upload
returns null). -/
def assetW2 : AssetRef :=
  ⟨.file, "[d](file/b.gz \"t\")".toList, "d".toList, "file/b.gz".toList⟩

/-- The witness uploader: the image resolves, the file attachment does
not. -/
def uploadW : List Char → Option (List Char) :=
  fun p => if p = "image/a.png".toList then some "https://cdn/a.png".toList else none

/-- C5 witness: on `Intro ![x](image/a.png) mid [d](file/b.gz "t") end`
the resolvable image reference is rewritten (title-free) and the
unresolvable file reference and all other text stay byte-identical. -/
theorem c5_witness :
    (scanImages (glueS segsW ([assetW1, assetW2].map (·.full))) ++
      scanFileRefs (glueS segsW ([assetW1, assetW2].map (·.full))) =
      [assetW1, assetW2]) ∧
    noEarlyOcc uploadW [] segsW [assetW1, assetW2] = true ∧
    processMarkdownContent uploadW (glueS segsW ([assetW1, assetW2].map (·.full))) =
      glueS segsW ([assetW1, assetW2].map (rewriteOf uploadW)) :=
  ⟨by decide, by decide,
    c5_amended uploadW segsW [assetW1, assetW2] (by decide) (by decide)⟩

/-! ## Content sync orchestrator (`syncFile` and `main` in `part_001` /
`part_002`) -/

/-- The key the pre-processing sort compares: `extractSortOrder(name, 0)` —
every candidate is compared at index 0, so the discovery index never
influences the comparison and every name without a recognized prefix
compares as order 1. -/
def sortKey0 (name : List Char) : Nat := extractSortOrder name 0

/-- The comparator `(a, b) => extractSortOrder(a.name, 0) -
extractSortOrder(b.name, 0)` as an ordering relation. -/
def keyLe (a b : List Char) : Prop := sortKey0 a ≤ sortKey0 b

instance : DecidableRel keyLe := fun a b => Nat.decLe (sortKey0 a) (sortKey0 b)

instance : IsTotal (List Char) keyLe := ⟨fun a b => Nat.le_total (sortKey0 a) (sortKey0 b)⟩

instance : IsTrans (List Char) keyLe := ⟨fun _ _ _ => Nat.le_trans⟩

/-- `files.sort(comparator)`: V8's `Array.prototype.sort` is stable, and a
stable comparison sort by a total preorder has a unique result, here
modelled by stable insertion sort. -/
def sortedFiles (files : List (List Char)) : List (List Char) :=
  List.insertionSort keyLe files

/-- `syncFile(file, index)` from `part_001`: build the upsert payload
{slug, title = full name, sort_order = extractSortOrder(name, index),
md_content}; `io` abstracts the fallible steps (file read and the store
upsert), `content` the processed Markdown body. -/
def syncFile (io : List Char → Except (List Char) Unit)
    (content : List Char → List Char) (name : List Char) (i : Nat) :
    Except (List Char) CoursePage :=
  match io name with
  | .ok _ => .ok ⟨generateSlug name, name, extractSortOrder name i, content name⟩
  | .error m => .error m

/-- The run tally: success and failure counts, the upserted rows in order,
and the failure log of (document name, error detail) pairs. -/
structure SyncTally where
  succNum : Nat
  failNum : Nat
  rows : List CoursePage
  failLog : List (List Char × List Char)
deriving DecidableEq, Repr

/-- The `for (let i = 0; …)` loop of `main`: each failure is caught,
logged with the document name and error detail, counted, and the loop
continues. -/
def syncLoop (io : List Char → Except (List Char) Unit)
    (content : List Char → List Char) : Nat → List (List Char) → SyncTally
  | _, [] => ⟨0, 0, [], []⟩
  | i, n :: ns =>
      let rest := syncLoop io content (i + 1) ns
      match syncFile io content n i with
      | .ok row => ⟨rest.succNum + 1, rest.failNum, row :: rest.rows, rest.failLog⟩
      | .error m => ⟨rest.succNum, rest.failNum + 1, rest.rows, (n, m) :: rest.failLog⟩

/-- How a sync run ends: `process.exit(code)` before any document is
processed, or completion with a tally. -/
inductive RunResult where
  | exited (code : Nat)
  | completed (t : SyncTally)
deriving DecidableEq, Repr

/-- `main` from `part_001` (with the top-level credential check of the
script): missing SUPABASE_SERVICE_ROLE_KEY exits 1; a listBuckets error
exits 1; an absent bucket exits 1; otherwise the candidates are sorted by
`sortKey0` and processed sequentially from loop index 0.  (The
empty-candidate early return equals the loop on an empty list.) -/
def runSync (hasKey : Bool) (buckets : Except (List Char) (List (List Char)))
    (bucket : List Char) (io : List Char → Except (List Char) Unit)
    (content : List Char → List Char) (files : List (List Char)) : RunResult :=
  if !hasKey then .exited 1
  else
    match buckets with
    | .error _ => .exited 1
    | .ok bs =>
        if !(bs.contains bucket) then .exited 1
        else .completed (syncLoop io content 0 (sortedFiles files))

theorem extractSortOrder_no_pattern (name : List Char) (i : Nat)
    (h1 : chineseOrder name = none)
    (h2 : ∀ d rest, name = d :: rest → d.isDigit = false) :
    extractSortOrder name i = i + 1 := by
  cases name with
  | nil => rfl
  | cons d rest =>
      have hd : d.isDigit = false := h2 d rest rfl
      unfold extractSortOrder
      rw [h1]
      simp [hd]

theorem syncLoop_counts (io : List Char → Except (List Char) Unit)
    (content : List Char → List Char) :
    ∀ (ns : List (List Char)) (i : Nat),
      (syncLoop io content i ns).succNum + (syncLoop io content i ns).failNum =
        ns.length := by
  intro ns
  induction ns with
  | nil => intro i; rfl
  | cons n ns ih =>
      intro i
      have := ih (i + 1)
      cases h : io n <;> simp [syncLoop, syncFile, h] <;> omega

theorem syncLoop_failLog (io : List Char → Except (List Char) Unit)
    (content : List Char → List Char) :
    ∀ (ns : List (List Char)) (i : Nat),
      (syncLoop io content i ns).failLog =
        ns.filterMap (fun n =>
          match io n with
          | .error m => some (n, m)
          | .ok _ => none) := by
  intro ns
  induction ns with
  | nil => intro i; rfl
  | cons n ns ih =>
      intro i
      have := ih (i + 1)
      cases h : io n <;> simp [syncLoop, syncFile, h, List.filterMap_cons, this]

theorem syncLoop_failNum (io : List Char → Except (List Char) Unit)
    (content : List Char → List Char) :
    ∀ (ns : List (List Char)) (i : Nat),
      (syncLoop io content i ns).failNum =
        (syncLoop io content i ns).failLog.length := by
  intro ns
  induction ns with
  | nil => intro i; rfl
  | cons n ns ih =>
      intro i
      have := ih (i + 1)
      cases h : io n <;> simp [syncLoop, syncFile, h, this]

theorem syncLoop_rows (io : List Char → Except (List Char) Unit)
    (content : List Char → List Char) :
    ∀ (ns : List (List Char)) (i : Nat),
      (syncLoop io content i ns).rows =
        (List.enumFrom i ns).filterMap (fun p =>
          match io p.2 with
          | .ok _ => some ⟨generateSlug p.2, p.2, extractSortOrder p.2 p.1, content p.2⟩
          | .error _ => none) := by
  intro ns
  induction ns with
  | nil => intro i; rfl
  | cons n ns ih =>
      intro i
      have := ih (i + 1)
      cases h : io n <;>
        simp [syncLoop, syncFile, h, List.enumFrom_cons, List.filterMap_cons, this]

/-- C7: the pre-processing sort compares `extractSortOrder(name, 0)` — a
name with neither a recognized Chinese-numeral nor decimal prefix compares
as order 1, and the comparison never involves the discovery index — the
sorted list is a permutation of the candidates ordered by that key; and the
`sort_order` stored for each successfully synced document is
`extractSortOrder(name, i)` with `i` its 0-based position in the post-sort
list (the discovery-index tiebreak takes effect only in this per-item
assignment). -/
theorem c7_sort_index_zero_quirk (files : List (List Char))
    (io : List Char → Except (List Char) Unit) (content : List Char → List Char) :
    (∀ name, chineseOrder name = none →
      (∀ d rest, name = d :: rest → d.isDigit = false) → sortKey0 name = 1) ∧
    (sortedFiles files).Perm files ∧
    (sortedFiles files).Sorted keyLe ∧
    (syncLoop io content 0 (sortedFiles files)).rows =
      (sortedFiles files).enum.filterMap (fun p =>
        match io p.2 with
        | .ok _ => some ⟨generateSlug p.2, p.2, extractSortOrder p.2 p.1, content p.2⟩
        | .error _ => none) := by
  refine ⟨?_, List.perm_insertionSort keyLe files,
    List.sorted_insertionSort keyLe files, ?_⟩
  · intro name h1 h2
    unfold sortKey0
    rw [extractSortOrder_no_pattern name 0 h1 h2]
  · rw [syncLoop_rows io content (sortedFiles files) 0]
    rfl

/-- C8: once the credential and bucket preconditions pass, every candidate
is processed, per-document failures are counted and logged with the
document name and error detail without aborting the loop, and
succeeded + failed equals the number of candidates; a missing service
credential, a bucket-listing error, or an absent bucket exits with code 1
before any document is processed. -/
theorem c8_failure_policy (hasKey : Bool)
    (buckets : Except (List Char) (List (List Char))) (bucket : List Char)
    (io : List Char → Except (List Char) Unit)
    (content : List Char → List Char) (files : List (List Char)) :
    (hasKey = false → runSync hasKey buckets bucket io content files = .exited 1) ∧
    (∀ m, buckets = .error m →
      runSync hasKey buckets bucket io content files = .exited 1) ∧
    (∀ bs, buckets = .ok bs → bs.contains bucket = false →
      runSync hasKey buckets bucket io content files = .exited 1) ∧
    (∀ bs, hasKey = true → buckets = .ok bs → bs.contains bucket = true →
      ∃ t, runSync hasKey buckets bucket io content files = .completed t ∧
        t.succNum + t.failNum = files.length ∧
        t.failLog = (sortedFiles files).filterMap (fun n =>
          match io n with
          | .error m => some (n, m)
          | .ok _ => none) ∧
        t.failNum = t.failLog.length) := by
  refine ⟨?_, ?_, ?_, ?_⟩
  · intro h
    subst h
    rfl
  · intro m hm
    subst hm
    cases hasKey <;> rfl
  · intro bs hbs hc
    subst hbs
    cases hasKey with
    | false => rfl
    | true =>
        show (if (!(bs.contains bucket)) = true then RunResult.exited 1
          else RunResult.completed (syncLoop io content 0 (sortedFiles files))) =
          RunResult.exited 1
        rw [hc]
        rfl
  · intro bs hk hbs hc
    subst hk
    subst hbs
    refine ⟨syncLoop io content 0 (sortedFiles files), ?_, ?_, ?_, ?_⟩
    · show (if (!(bs.contains bucket)) = true then RunResult.exited 1
        else RunResult.completed (syncLoop io content 0 (sortedFiles files))) =
        RunResult.completed (syncLoop io content 0 (sortedFiles files))
      rw [hc]
      rfl
    · rw [syncLoop_counts io content (sortedFiles files) 0]
      exact (List.perm_insertionSort keyLe files).length_eq
    · exact syncLoop_failLog io content (sortedFiles files) 0
    · exact syncLoop_failNum io content (sortedFiles files) 0

/-- Candidate names for the C7/C8 witnesses: keys 1, 2, 1 under
`sortKey0`. -/
def filesW : List (List Char) :=
  ["第一课-b".toList, "02-a".toList, "zzz".toList]

/-- Per-document outcomes for the witnesses: `zzz` fails, the rest
succeed. -/
def ioW : List Char → Except (List Char) Unit :=
  fun n => if n = "zzz".toList then .error "boom".toList else .ok ()

/-- Processed Markdown bodies for the witnesses. -/
def contentW : List Char → List Char := fun _ => "md".toList

/-- C7 witness: a prefix-free name compares as order 1; the witness
candidate list is sorted stably by the index-0 key
(`[第一课-b, zzz, 02-a]`), and the rows carry post-sort positional
orders. -/
theorem c7_witness :
    sortKey0 "hello".toList = 1 ∧
    (sortedFiles filesW).Perm filesW ∧
    (sortedFiles filesW).Sorted keyLe ∧
    (syncLoop ioW contentW 0 (sortedFiles filesW)).rows =
      (sortedFiles filesW).enum.filterMap (fun p =>
        match ioW p.2 with
        | .ok _ => some ⟨generateSlug p.2, p.2, extractSortOrder p.2 p.1, contentW p.2⟩
        | .error _ => none) := by
  refine ⟨?_, (c7_sort_index_zero_quirk filesW ioW contentW).2.1,
    (c7_sort_index_zero_quirk filesW ioW contentW).2.2.1,
    (c7_sort_index_zero_quirk filesW ioW contentW).2.2.2⟩
  refine (c7_sort_index_zero_quirk filesW ioW contentW).1 "hello".toList (by decide) ?_
  intro d rest hd
  have : ('h' : Char) = d := by injection hd
  rw [← this]
  decide

/-- The bucket name of the witness run. -/
def bucketW : List Char := "course-assets".toList

/-- C8 witness: with the credential present and the bucket existing, the
witness run completes with 2 succeeded + 1 failed = 3 candidates and the
failure logged with name and detail; the missing-credential run exits 1. -/
theorem c8_witness :
    (runSync false (.ok [bucketW]) bucketW ioW contentW filesW = .exited 1) ∧
    (∃ t, runSync true (.ok [bucketW]) bucketW ioW contentW filesW = .completed t ∧
      t.succNum + t.failNum = filesW.length ∧
      t.failLog = (sortedFiles filesW).filterMap (fun n =>
        match ioW n with
        | .error m => some (n, m)
        | .ok _ => none) ∧
      t.failNum = t.failLog.length) :=
  ⟨(c8_failure_policy false (.ok [bucketW]) bucketW ioW contentW filesW).1 rfl,
    (c8_failure_policy true (.ok [bucketW]) bucketW ioW contentW filesW).2.2.2
      [bucketW] rfl rfl (by decide)⟩
